import Mathlib

/-!
Verification of the S7 data-type codec layer of the snap7-rs repository
(src/src/utils/getters.rs and src/src/utils/setters.rs), shallowly embedded
in Lean 4.

Modelling conventions:
* A Rust byte buffer `&[u8]` is a `List Nat`; every byte produced by the code
  is proved `< 256`, and theorems that read pre-existing buffer bytes carry
  a `< 256` hypothesis where the value matters.
* Machine integers are `Nat` (unsigned) and `Int` (signed) with explicit
  `% 2^w` wrapping where the Rust code wraps or casts.
* `f32`/`f64` values are represented by their IEEE-754 bit patterns
  (`Nat < 2^32` / `< 2^64`): the codec only moves the bit pattern through
  `to_be_bytes`/`from_bits`, performing no floating-point arithmetic.
* Fallible or panicking Rust code returns `RRes α`: `.ok` for a normal
  return, `.err` for a returned `Err` value, `.panicked` for a `panic!`,
  a failed `unwrap`/`expect` or an out-of-bounds index.  Panic messages are
  kept close to the source text (apostrophes elided).
* Encoders take the buffer and return `(RRes Unit) × List Nat`: the result
  and the buffer after the call, so that partial-write behaviour on the
  error paths is visible in the model.
-/

namespace Snap7

/-- Outcome of a Rust call: normal return, returned `Err`, or a panic. -/
inductive RRes (α : Type) where
  | ok : α → RRes α
  | err : String → RRes α
  | panicked : String → RRes α
deriving DecidableEq, Repr

/-- Rust slice `buf[i..i+w]`: `some` of the sub-list when in bounds,
`none` when the range check panics. -/
def slice? (buf : List Nat) (i w : Nat) : Option (List Nat) :=
  if i + w ≤ buf.length then some ((buf.drop i).take w) else none

/-- Rust `buf[i..i+bs.length].copy_from_slice(&bs)` (in-bounds case):
replace the `bs.length` bytes starting at `i`. -/
def splice (buf : List Nat) (i : Nat) (bs : List Nat) : List Nat :=
  buf.take i ++ bs ++ buf.drop (i + bs.length)

/-- Big-endian bytes of `v` on `w` bytes (`uN::to_be_bytes` of `v % 2^(8w)`). -/
def beBytes : Nat → Nat → List Nat
  | 0, _ => []
  | w + 1, v => beBytes w (v / 256) ++ [v % 256]

/-- `uN::from_be_bytes`: big-endian value of a byte list. -/
def beNat (bs : List Nat) : Nat :=
  bs.foldl (fun acc b => 256 * acc + b) 0

/-- Two's-complement reading of an unsigned `w*8`-bit value (`iN::from_be_bytes`
composed with `beNat`). -/
def asSigned (bits : Nat) (n : Nat) : Int :=
  if n < 2 ^ (bits - 1) then (n : Int) else (n : Int) - 2 ^ bits

/-- Two's-complement `w*8`-bit image of a signed value (`x as uN`). -/
def toUnsigned (bits : Nat) (x : Int) : Nat :=
  (x % (2 ^ bits : Int)).toNat

/-! ## Decoders (src/src/utils/getters.rs) -/

/-- `get_byte`: `bytearray[byte_index]`. -/
def get_byte (buf : List Nat) (i : Nat) : RRes Nat :=
  match buf[i]? with
  | some b => .ok b
  | none => .panicked "index out of bounds"

/-- `get_usint`: identical read to `get_byte`. -/
def get_usint (buf : List Nat) (i : Nat) : RRes Nat :=
  match buf[i]? with
  | some b => .ok b
  | none => .panicked "index out of bounds"

/-- `get_sint`: `bytearray[byte_index] as i8`. -/
def get_sint (buf : List Nat) (i : Nat) : RRes Int :=
  match buf[i]? with
  | some b => .ok (asSigned 8 b)
  | none => .panicked "index out of bounds"

/-- `get_word`: 2 bytes, `u16::from_be_bytes`. -/
def get_word (buf : List Nat) (i : Nat) : RRes Nat :=
  match slice? buf i 2 with
  | some bs => .ok (beNat bs)
  | none => .panicked "slice index out of range"

/-- `get_uint`: delegates to `get_word`. -/
def get_uint (buf : List Nat) (i : Nat) : RRes Nat :=
  get_word buf i

/-- `get_int`: 2 bytes, `i16::from_be_bytes`. -/
def get_int (buf : List Nat) (i : Nat) : RRes Int :=
  match slice? buf i 2 with
  | some bs => .ok (asSigned 16 (beNat bs))
  | none => .panicked "slice index out of range"

/-- `get_dword`: 4 bytes, `u32::from_be_bytes`. -/
def get_dword (buf : List Nat) (i : Nat) : RRes Nat :=
  match slice? buf i 4 with
  | some bs => .ok (beNat bs)
  | none => .panicked "slice index out of range"

/-- `get_udint`: delegates to `get_dword`. -/
def get_udint (buf : List Nat) (i : Nat) : RRes Nat :=
  get_dword buf i

/-- `get_dint`: 4 bytes, `i32::from_be_bytes`. -/
def get_dint (buf : List Nat) (i : Nat) : RRes Int :=
  match slice? buf i 4 with
  | some bs => .ok (asSigned 32 (beNat bs))
  | none => .panicked "slice index out of range"

/-- `get_real`: 4 bytes, `f32::from_bits(u32::from_be_bytes _)`; the `f32`
is represented by its bit pattern. -/
def get_real (buf : List Nat) (i : Nat) : RRes Nat :=
  match slice? buf i 4 with
  | some bs => .ok (beNat bs)
  | none => .panicked "slice index out of range"

/-- `get_lword`: 8 bytes, `u64::from_be_bytes`. -/
def get_lword (buf : List Nat) (i : Nat) : RRes Nat :=
  match slice? buf i 8 with
  | some bs => .ok (beNat bs)
  | none => .panicked "slice index out of range"

/-- `get_ulint`: delegates to `get_lword`. -/
def get_ulint (buf : List Nat) (i : Nat) : RRes Nat :=
  get_lword buf i

/-- `get_lint`: 8 bytes, `i64::from_be_bytes`. -/
def get_lint (buf : List Nat) (i : Nat) : RRes Int :=
  match slice? buf i 8 with
  | some bs => .ok (asSigned 64 (beNat bs))
  | none => .panicked "slice index out of range"

/-- `get_lreal`: 8 bytes, `f64::from_bits(u64::from_be_bytes _)`; the `f64`
is represented by its bit pattern. -/
def get_lreal (buf : List Nat) (i : Nat) : RRes Nat :=
  match slice? buf i 8 with
  | some bs => .ok (beNat bs)
  | none => .panicked "slice index out of range"

/-! ## Encoders (src/src/utils/setters.rs) -/

/-- `set_byte`: `bytearray[byte_index] = value`. -/
def set_byte (buf : List Nat) (i : Nat) (v : Nat) : RRes Unit × List Nat :=
  if i < buf.length then (.ok (), buf.set i (v % 256))
  else (.panicked "index out of bounds", buf)

/-- `set_usint`: identical write to `set_byte`. -/
def set_usint (buf : List Nat) (i : Nat) (v : Nat) : RRes Unit × List Nat :=
  if i < buf.length then (.ok (), buf.set i (v % 256))
  else (.panicked "index out of bounds", buf)

/-- `set_sint`: `bytearray[byte_index] = value as u8`. -/
def set_sint (buf : List Nat) (i : Nat) (v : Int) : RRes Unit × List Nat :=
  if i < buf.length then (.ok (), buf.set i (toUnsigned 8 v))
  else (.panicked "index out of bounds", buf)

/-- `set_word`: write `value.to_be_bytes()` (2 bytes) at `i`. -/
def set_word (buf : List Nat) (i : Nat) (v : Nat) : RRes Unit × List Nat :=
  if i + 2 ≤ buf.length then (.ok (), splice buf i (beBytes 2 v))
  else (.panicked "slice index out of range", buf)

/-- `set_uint`: same write as `set_word` (separate function in the source). -/
def set_uint (buf : List Nat) (i : Nat) (v : Nat) : RRes Unit × List Nat :=
  if i + 2 ≤ buf.length then (.ok (), splice buf i (beBytes 2 v))
  else (.panicked "slice index out of range", buf)

/-- `set_int`: write `(value : i16).to_be_bytes()` at `i`. -/
def set_int (buf : List Nat) (i : Nat) (v : Int) : RRes Unit × List Nat :=
  if i + 2 ≤ buf.length then (.ok (), splice buf i (beBytes 2 (toUnsigned 16 v)))
  else (.panicked "slice index out of range", buf)

/-- `set_dword`: write `value.to_be_bytes()` (4 bytes) at `i`. -/
def set_dword (buf : List Nat) (i : Nat) (v : Nat) : RRes Unit × List Nat :=
  if i + 4 ≤ buf.length then (.ok (), splice buf i (beBytes 4 v))
  else (.panicked "slice index out of range", buf)

/-- `set_udint`: same write as `set_dword` (separate function in the source). -/
def set_udint (buf : List Nat) (i : Nat) (v : Nat) : RRes Unit × List Nat :=
  if i + 4 ≤ buf.length then (.ok (), splice buf i (beBytes 4 v))
  else (.panicked "slice index out of range", buf)

/-- `set_dint`: write `(value : i32).to_be_bytes()` at `i`. -/
def set_dint (buf : List Nat) (i : Nat) (v : Int) : RRes Unit × List Nat :=
  if i + 4 ≤ buf.length then (.ok (), splice buf i (beBytes 4 (toUnsigned 32 v)))
  else (.panicked "slice index out of range", buf)

/-- `set_real`: write `(value : f32).to_be_bytes()` at `i`; the `f32` is
represented by its bit pattern, and `to_be_bytes` is the big-endian image
of that pattern. -/
def set_real (buf : List Nat) (i : Nat) (v : Nat) : RRes Unit × List Nat :=
  if i + 4 ≤ buf.length then (.ok (), splice buf i (beBytes 4 v))
  else (.panicked "slice index out of range", buf)

/-- `set_lreal`: write `(value : f64).to_be_bytes()` (8 bytes) at `i`;
the `f64` is represented by its bit pattern. -/
def set_lreal (buf : List Nat) (i : Nat) (v : Nat) : RRes Unit × List Nat :=
  if i + 8 ≤ buf.length then (.ok (), splice buf i (beBytes 8 v))
  else (.panicked "slice index out of range", buf)

/-- Modelled from the spec: `set_lword` is absent from src (the repository
only ships the decoder `get_lword`); the spec encoder contract for
fixed-width scalars prescribes writing exactly 8 bytes, big-endian. -/
def set_lword (buf : List Nat) (i : Nat) (v : Nat) : RRes Unit × List Nat :=
  if i + 8 ≤ buf.length then (.ok (), splice buf i (beBytes 8 v))
  else (.panicked "slice index out of range", buf)

/-- Modelled from the spec: `set_ulint` is absent from src; same 8-byte
big-endian unsigned write as `set_lword`. -/
def set_ulint (buf : List Nat) (i : Nat) (v : Nat) : RRes Unit × List Nat :=
  if i + 8 ≤ buf.length then (.ok (), splice buf i (beBytes 8 v))
  else (.panicked "slice index out of range", buf)

/-- Modelled from the spec: `set_lint` is absent from src; writes the
two's-complement big-endian image of a signed 64-bit value. -/
def set_lint (buf : List Nat) (i : Nat) (v : Int) : RRes Unit × List Nat :=
  if i + 8 ≤ buf.length then (.ok (), splice buf i (beBytes 8 (toUnsigned 64 v)))
  else (.panicked "slice index out of range", buf)

/-! ## Byte-level lemmas -/

theorem beBytes_length (w v : Nat) : (beBytes w v).length = w := by
  induction w generalizing v with
  | zero => rfl
  | succ w ih => simp [beBytes, ih]

theorem beBytes_lt (w v : Nat) : ∀ b ∈ beBytes w v, b < 256 := by
  induction w generalizing v with
  | zero => simp [beBytes]
  | succ w ih =>
    intro b hb
    simp only [beBytes, List.mem_append, List.mem_singleton] at hb
    rcases hb with h | h
    · exact ih _ _ h
    · subst h; exact Nat.mod_lt _ (by norm_num)

theorem splice_length (buf bs : List Nat) (i : Nat) (h : i + bs.length ≤ buf.length) :
    (splice buf i bs).length = buf.length := by
  simp only [splice, List.length_append, List.length_take, List.length_drop]
  omega

theorem slice_splice (buf bs : List Nat) (i : Nat) (h : i + bs.length ≤ buf.length) :
    slice? (splice buf i bs) i bs.length = some bs := by
  have hlen : (splice buf i bs).length = buf.length := splice_length buf bs i h
  have htake : (buf.take i).length = i := by
    simp [List.length_take]; omega
  have hc : i + bs.length ≤ (splice buf i bs).length := by rw [hlen]; exact h
  unfold slice?
  rw [if_pos hc]
  unfold splice
  rw [List.append_assoc, List.drop_left' htake, List.take_left' rfl]

theorem slice_splice_be (buf : List Nat) (i w v : Nat) (h : i + w ≤ buf.length) :
    slice? (splice buf i (beBytes w v)) i w = some (beBytes w v) := by
  have h2 : i + (beBytes w v).length ≤ buf.length := by rw [beBytes_length]; exact h
  have := slice_splice buf (beBytes w v) i h2
  rwa [beBytes_length] at this

theorem beNat_append (bs : List Nat) (b : Nat) :
    beNat (bs ++ [b]) = 256 * beNat bs + b := by
  simp [beNat, List.foldl_append]

theorem beNat_beBytes (w v : Nat) (hv : v < 256 ^ w) : beNat (beBytes w v) = v := by
  induction w generalizing v with
  | zero =>
    interval_cases v
    rfl
  | succ w ih =>
    have hdiv : v / 256 < 256 ^ w := by
      rw [Nat.div_lt_iff_lt_mul (by norm_num)]
      calc v < 256 ^ (w + 1) := hv
        _ = 256 ^ w * 256 := by ring
    rw [beBytes, beNat_append, ih _ hdiv]
    omega

theorem toUnsigned_lt (bits : Nat) (x : Int) : toUnsigned bits x < 2 ^ bits := by
  unfold toUnsigned
  have hpos : (0:Int) < 2 ^ bits := by positivity
  have hlt := Int.emod_lt_of_pos x hpos
  have hc : (((2:Nat) ^ bits : Nat) : Int) = (2:Int) ^ bits := by push_cast; ring
  omega

theorem signed_roundtrip (bits : Nat) (x : Int) (hb : 1 ≤ bits)
    (h1 : -(2 ^ (bits - 1)) ≤ x) (h2 : x < 2 ^ (bits - 1)) :
    asSigned bits (toUnsigned bits x) = x := by
  unfold asSigned toUnsigned
  have hpow : (2:Int) ^ bits = 2 ^ (bits - 1) * 2 := by
    rw [← pow_succ]
    congr 1
    omega
  have hpos : (0:Int) < 2 ^ bits := by positivity
  have hnn := Int.emod_nonneg x (ne_of_gt hpos)
  have hlt := Int.emod_lt_of_pos x hpos
  have hcast : ((x % 2 ^ bits).toNat : Int) = x % 2 ^ bits := Int.toNat_of_nonneg hnn
  have hval : x % 2 ^ bits = x ∨ x % 2 ^ bits = x + 2 ^ bits := by
    rcases le_or_lt 0 x with hx | hx
    · left
      exact Int.emod_eq_of_lt hx (by omega)
    · right
      have : (x + 2 ^ bits) % 2 ^ bits = x % 2 ^ bits := Int.add_emod_self
      rw [← this]
      exact Int.emod_eq_of_lt (by omega) (by omega)
  have hcmp : (x % 2 ^ bits).toNat < 2 ^ (bits - 1) ↔ (x % 2 ^ bits) < 2 ^ (bits - 1) := by
    rw [← hcast]
    constructor
    · intro h
      exact_mod_cast (by exact_mod_cast h : ((x % 2 ^ bits).toNat : Int) < ((2:Int) ^ (bits - 1)))
    · intro h
      exact_mod_cast h
  split
  · rename_i hsp
    rw [hcmp] at hsp
    rw [hcast]
    omega
  · rename_i hsp
    rw [hcmp] at hsp
    push_neg at hsp
    rw [hcast]
    omega

/-- C1.  For every fixed-width numeric type (byte/usint as u8, sint as i8,
word/uint as u16, int as i16, dword/udint as u32, dint as i32, lword/ulint
as u64, lint as i64, real as f32, lreal as f64 — floats represented by
their bit patterns), every value of that type and every buffer with at
least `width` bytes available at `byte_index`, decoding the buffer at
`byte_index` after encoding the value there returns exactly that value. -/
theorem C1_roundtrip :
    (∀ buf i v, i + 1 ≤ List.length buf → v < 2 ^ 8 →
      (set_byte buf i v).1 = RRes.ok () ∧ get_byte (set_byte buf i v).2 i = RRes.ok v) ∧
    (∀ buf i v, i + 1 ≤ List.length buf → v < 2 ^ 8 →
      (set_usint buf i v).1 = RRes.ok () ∧ get_usint (set_usint buf i v).2 i = RRes.ok v) ∧
    (∀ buf i x, i + 1 ≤ List.length buf → -(2 ^ 7) ≤ x → x < 2 ^ 7 →
      (set_sint buf i x).1 = RRes.ok () ∧ get_sint (set_sint buf i x).2 i = RRes.ok x) ∧
    (∀ buf i v, i + 2 ≤ List.length buf → v < 2 ^ 16 →
      (set_word buf i v).1 = RRes.ok () ∧ get_word (set_word buf i v).2 i = RRes.ok v) ∧
    (∀ buf i v, i + 2 ≤ List.length buf → v < 2 ^ 16 →
      (set_uint buf i v).1 = RRes.ok () ∧ get_uint (set_uint buf i v).2 i = RRes.ok v) ∧
    (∀ buf i x, i + 2 ≤ List.length buf → -(2 ^ 15) ≤ x → x < 2 ^ 15 →
      (set_int buf i x).1 = RRes.ok () ∧ get_int (set_int buf i x).2 i = RRes.ok x) ∧
    (∀ buf i v, i + 4 ≤ List.length buf → v < 2 ^ 32 →
      (set_dword buf i v).1 = RRes.ok () ∧ get_dword (set_dword buf i v).2 i = RRes.ok v) ∧
    (∀ buf i v, i + 4 ≤ List.length buf → v < 2 ^ 32 →
      (set_udint buf i v).1 = RRes.ok () ∧ get_udint (set_udint buf i v).2 i = RRes.ok v) ∧
    (∀ buf i x, i + 4 ≤ List.length buf → -(2 ^ 31) ≤ x → x < 2 ^ 31 →
      (set_dint buf i x).1 = RRes.ok () ∧ get_dint (set_dint buf i x).2 i = RRes.ok x) ∧
    (∀ buf i v, i + 8 ≤ List.length buf → v < 2 ^ 64 →
      (set_lword buf i v).1 = RRes.ok () ∧ get_lword (set_lword buf i v).2 i = RRes.ok v) ∧
    (∀ buf i v, i + 8 ≤ List.length buf → v < 2 ^ 64 →
      (set_ulint buf i v).1 = RRes.ok () ∧ get_ulint (set_ulint buf i v).2 i = RRes.ok v) ∧
    (∀ buf i x, i + 8 ≤ List.length buf → -(2 ^ 63) ≤ x → x < 2 ^ 63 →
      (set_lint buf i x).1 = RRes.ok () ∧ get_lint (set_lint buf i x).2 i = RRes.ok x) ∧
    (∀ buf i v, i + 4 ≤ List.length buf → v < 2 ^ 32 →
      (set_real buf i v).1 = RRes.ok () ∧ get_real (set_real buf i v).2 i = RRes.ok v) ∧
    (∀ buf i v, i + 8 ≤ List.length buf → v < 2 ^ 64 →
      (set_lreal buf i v).1 = RRes.ok () ∧ get_lreal (set_lreal buf i v).2 i = RRes.ok v) := by
  refine ⟨?_, ?_, ?_, ?_, ?_, ?_, ?_, ?_, ?_, ?_, ?_, ?_, ?_, ?_⟩
  · intro buf i v h hv
    have hi : i < buf.length := by omega
    refine ⟨by simp [set_byte, if_pos hi], ?_⟩
    simp [set_byte, if_pos hi, get_byte, hi, Nat.mod_eq_of_lt (by omega : v < 256)]
  · intro buf i v h hv
    have hi : i < buf.length := by omega
    refine ⟨by simp [set_usint, if_pos hi], ?_⟩
    simp [set_usint, if_pos hi, get_usint, hi, Nat.mod_eq_of_lt (by omega : v < 256)]
  · intro buf i x h h1 h2
    have hi : i < buf.length := by omega
    refine ⟨by simp [set_sint, if_pos hi], ?_⟩
    simp [set_sint, if_pos hi, get_sint, hi, signed_roundtrip 8 x (by norm_num) (by simpa using h1) (by simpa using h2)]
  · intro buf i v h hv
    refine ⟨by simp [set_word, if_pos h], ?_⟩
    simp [set_word, if_pos h, get_word, slice_splice_be buf i 2 v h,
      beNat_beBytes 2 v (by norm_num; omega)]
  · intro buf i v h hv
    refine ⟨by simp [set_uint, if_pos h], ?_⟩
    simp [set_uint, if_pos h, get_uint, get_word, slice_splice_be buf i 2 v h,
      beNat_beBytes 2 v (by norm_num; omega)]
  · intro buf i x h h1 h2
    refine ⟨by simp [set_int, if_pos h], ?_⟩
    simp [set_int, if_pos h, get_int, slice_splice_be buf i 2 (toUnsigned 16 x) h,
      beNat_beBytes 2 (toUnsigned 16 x) (by have := toUnsigned_lt 16 x; norm_num at this ⊢; omega),
      signed_roundtrip 16 x (by norm_num) (by simpa using h1) (by simpa using h2)]
  · intro buf i v h hv
    refine ⟨by simp [set_dword, if_pos h], ?_⟩
    simp [set_dword, if_pos h, get_dword, slice_splice_be buf i 4 v h,
      beNat_beBytes 4 v (by norm_num; omega)]
  · intro buf i v h hv
    refine ⟨by simp [set_udint, if_pos h], ?_⟩
    simp [set_udint, if_pos h, get_udint, get_dword, slice_splice_be buf i 4 v h,
      beNat_beBytes 4 v (by norm_num; omega)]
  · intro buf i x h h1 h2
    refine ⟨by simp [set_dint, if_pos h], ?_⟩
    simp [set_dint, if_pos h, get_dint, slice_splice_be buf i 4 (toUnsigned 32 x) h,
      beNat_beBytes 4 (toUnsigned 32 x) (by have := toUnsigned_lt 32 x; norm_num at this ⊢; omega),
      signed_roundtrip 32 x (by norm_num) (by simpa using h1) (by simpa using h2)]
  · intro buf i v h hv
    refine ⟨by simp [set_lword, if_pos h], ?_⟩
    simp [set_lword, if_pos h, get_lword, slice_splice_be buf i 8 v h,
      beNat_beBytes 8 v (by norm_num; omega)]
  · intro buf i v h hv
    refine ⟨by simp [set_ulint, if_pos h], ?_⟩
    simp [set_ulint, if_pos h, get_ulint, get_lword, slice_splice_be buf i 8 v h,
      beNat_beBytes 8 v (by norm_num; omega)]
  · intro buf i x h h1 h2
    refine ⟨by simp [set_lint, if_pos h], ?_⟩
    simp [set_lint, if_pos h, get_lint, slice_splice_be buf i 8 (toUnsigned 64 x) h,
      beNat_beBytes 8 (toUnsigned 64 x) (by have := toUnsigned_lt 64 x; norm_num at this ⊢; omega),
      signed_roundtrip 64 x (by norm_num) (by simpa using h1) (by simpa using h2)]
  · intro buf i v h hv
    refine ⟨by simp [set_real, if_pos h], ?_⟩
    simp [set_real, if_pos h, get_real, slice_splice_be buf i 4 v h,
      beNat_beBytes 4 v (by norm_num; omega)]
  · intro buf i v h hv
    refine ⟨by simp [set_lreal, if_pos h], ?_⟩
    simp [set_lreal, if_pos h, get_lreal, slice_splice_be buf i 8 v h,
      beNat_beBytes 8 v (by norm_num; omega)]

/-- Witness for C1: each round-trip instantiated on a concrete buffer and
value (the real/lreal values are the bit patterns of `10.0f32`/`10.0f64`). -/
theorem C1_roundtrip_witness :
    get_byte (set_byte [0, 0, 0, 0, 0, 0, 0, 0] 0 171).2 0 = RRes.ok 171 ∧
    get_usint (set_usint [0, 0, 0, 0, 0, 0, 0, 0] 0 200).2 0 = RRes.ok 200 ∧
    get_sint (set_sint [0, 0, 0, 0, 0, 0, 0, 0] 0 (-5)).2 0 = RRes.ok (-5) ∧
    get_word (set_word [0, 0, 0, 0, 0, 0, 0, 0] 0 4660).2 0 = RRes.ok 4660 ∧
    get_uint (set_uint [0, 0, 0, 0, 0, 0, 0, 0] 0 65535).2 0 = RRes.ok 65535 ∧
    get_int (set_int [0, 0, 0, 0, 0, 0, 0, 0] 0 (-32768)).2 0 = RRes.ok (-32768) ∧
    get_dword (set_dword [0, 0, 0, 0, 0, 0, 0, 0] 0 305419896).2 0 = RRes.ok 305419896 ∧
    get_udint (set_udint [0, 0, 0, 0, 0, 0, 0, 0] 0 1).2 0 = RRes.ok 1 ∧
    get_dint (set_dint [0, 0, 0, 0, 0, 0, 0, 0] 0 (-58)).2 0 = RRes.ok (-58) ∧
    get_lword (set_lword [0, 0, 0, 0, 0, 0, 0, 0] 0 1311768467294899695).2 0 =
      RRes.ok 1311768467294899695 ∧
    get_ulint (set_ulint [0, 0, 0, 0, 0, 0, 0, 0] 0 2).2 0 = RRes.ok 2 ∧
    get_lint (set_lint [0, 0, 0, 0, 0, 0, 0, 0] 0 (-58)).2 0 = RRes.ok (-58) ∧
    get_real (set_real [0, 0, 0, 0, 0, 0, 0, 0] 0 1092616192).2 0 = RRes.ok 1092616192 ∧
    get_lreal (set_lreal [0, 0, 0, 0, 0, 0, 0, 0] 0 4620693217682128896).2 0 =
      RRes.ok 4620693217682128896 := by
  obtain ⟨h1, h2, h3, h4, h5, h6, h7, h8, h9, h10, h11, h12, h13, h14⟩ := C1_roundtrip
  exact ⟨(h1 _ 0 171 (by decide) (by decide)).2,
    (h2 _ 0 200 (by decide) (by decide)).2,
    (h3 _ 0 (-5) (by decide) (by decide) (by decide)).2,
    (h4 _ 0 4660 (by decide) (by decide)).2,
    (h5 _ 0 65535 (by decide) (by decide)).2,
    (h6 _ 0 (-32768) (by decide) (by decide) (by decide)).2,
    (h7 _ 0 305419896 (by decide) (by decide)).2,
    (h8 _ 0 1 (by decide) (by decide)).2,
    (h9 _ 0 (-58) (by decide) (by decide) (by decide)).2,
    (h10 _ 0 1311768467294899695 (by decide) (by decide)).2,
    (h11 _ 0 2 (by decide) (by decide)).2,
    (h12 _ 0 (-58) (by decide) (by decide) (by decide)).2,
    (h13 _ 0 1092616192 (by decide) (by decide)).2,
    (h14 _ 0 4620693217682128896 (by decide) (by decide)).2⟩

/-! ## Bit and char encoders -/

/-- `set_bool`: rejects `bool_index > 7`, otherwise ORs the mask in
(`value == true`) or ANDs its complement (`!mask`, modelled as
`255 ^^^ mask`) into `bytearray[byte_index]`. -/
def set_bool (buf : List Nat) (i j : Nat) (v : Bool) : RRes Unit × List Nat :=
  if 7 < j then (.err ("bool_index " ++ Nat.repr j ++ " out of range"), buf)
  else
    match buf[i]? with
    | some b =>
      (.ok (), buf.set i (if v then b ||| (1 <<< j) else b &&& (255 ^^^ (1 <<< j))))
    | none => (.panicked "index out of bounds", buf)

/-- `set_char`: writes `value as u8` when the char is ASCII, else returns
an error without touching the buffer. -/
def set_char (buf : List Nat) (i : Nat) (c : Char) : RRes Unit × List Nat :=
  if c.toNat ≤ 127 then
    match buf[i]? with
    | some _ => (.ok (), buf.set i (c.toNat % 256))
    | none => (.panicked "index out of bounds", buf)
  else (.err ("Non-ASCII character: " ++ String.mk [c]), buf)

/-- C8.  `set_bool` with `bool_index ≤ 7` succeeds and replaces only bit
`bool_index` of the byte at `byte_index` with the requested value; all
other bits of that byte and all other bytes are unchanged. -/
theorem C8_set_bool_bit_isolation (buf : List Nat) (i j : Nat) (v : Bool) (b : Nat)
    (hj : j ≤ 7) (hb : buf[i]? = some b) (hlt : b < 256) :
    (set_bool buf i j v).1 = RRes.ok () ∧
    ∃ b2, (set_bool buf i j v).2 = buf.set i b2 ∧ b2 < 256 ∧
      b2.testBit j = v ∧
      (∀ k, k ≠ j → b2.testBit k = b.testBit k) ∧
      (∀ k, k ≠ i → ((set_bool buf i j v).2)[k]? = buf[k]?) := by
  have hij : ¬ 7 < j := by omega
  have hshift : (1 <<< j) = 2 ^ j := by rw [Nat.shiftLeft_eq, Nat.one_mul]
  have h255 : (255 : Nat) = 2 ^ 8 - 1 := by norm_num
  simp only [set_bool, if_neg hij, hb]
  refine ⟨trivial, _, rfl, ?_, ?_, ?_, ?_⟩
  · cases v with
    | true =>
      simp only [if_pos, hshift]
      have h2j : 2 ^ j < 2 ^ 8 := Nat.pow_lt_pow_right (by norm_num) (by omega)
      have := @Nat.or_lt_two_pow b (2 ^ j) 8 (by omega) h2j
      omega
    | false =>
      simp only [Bool.false_eq_true, if_neg, ite_false]
      exact lt_of_le_of_lt Nat.and_le_left hlt
  · cases v with
    | true =>
      simp only [if_pos, hshift, Nat.testBit_or, Nat.testBit_two_pow_self, Bool.or_true]
    | false =>
      have ht1 : Nat.testBit 255 j = true := by
        rw [h255, Nat.testBit_two_pow_sub_one]
        simp
        omega
      have ht2 : Nat.testBit (1 <<< j) j = true := by
        rw [hshift]
        exact Nat.testBit_two_pow_self
      simp [Nat.testBit_and, Nat.testBit_xor, ht1, ht2]
  · intro k hk
    have ht2 : Nat.testBit (1 <<< j) k = false := by
      rw [hshift]
      exact Nat.testBit_two_pow_of_ne (Ne.symm hk)
    cases v with
    | true => simp [Nat.testBit_or, ht2]
    | false =>
      by_cases hk8 : k < 8
      · have ht1 : Nat.testBit 255 k = true := by
          rw [h255, Nat.testBit_two_pow_sub_one]
          simp
          omega
        simp [Nat.testBit_and, Nat.testBit_xor, ht1, ht2]
      · have hble : b < 2 ^ k := by
          have h1 : (256 : Nat) = 2 ^ 8 := by norm_num
          have h2 : (2:Nat) ^ 8 ≤ 2 ^ k := Nat.pow_le_pow_right (by norm_num) (by omega)
          omega
        have hb0 : Nat.testBit b k = false := Nat.testBit_lt_two_pow hble
        have ht1 : Nat.testBit 255 k = false := by
          rw [h255, Nat.testBit_two_pow_sub_one]
          simp
          omega
        simp [Nat.testBit_and, Nat.testBit_xor, ht1, ht2, hb0]
  · intro k hk
    exact List.getElem?_set_ne (Ne.symm hk)

/-- Witness for C8: setting bit 2 of `0b10101010` yields `0b10101110`
and leaves the neighbouring byte alone. -/
theorem C8_set_bool_bit_isolation_witness :
    (set_bool [170, 7] 0 2 true).1 = RRes.ok () ∧
    (set_bool [170, 7] 0 2 true).2 = [174, 7] := by
  have h := C8_set_bool_bit_isolation [170, 7] 0 2 true 170 (by decide) rfl (by decide)
  exact ⟨h.1, by decide⟩

/-! ## S5Time decoder

`get_s5time` renders the two bytes as four hex characters, matches the
first character against "0".."3" to pick the time base (panics otherwise),
then runs `char::to_digit(10)` over the remaining three characters
(panicking via `unwrap` on hex digits A..F, i.e. nibbles above 9) to build
the BCD magnitude, and returns
`Duration::from_micros((time_base * magnitude) as u64 * 1000)`.
The hex character of a nibble `n` is a decimal digit char exactly when
`n ≤ 9`, which is what `hexDigit` captures; the duration is modelled by
its total microsecond count. -/

/-- `char::to_digit(10)` applied to the hex character of nibble `n`. -/
def hexDigit (n : Nat) : Option Nat :=
  if n ≤ 9 then some n else none

/-- The 4-way time-base table of `get_s5time` (values in the unit the
source calls microseconds). -/
def s5base : Nat → Option Nat
  | 0 => some 10
  | 1 => some 100
  | 2 => some 1000
  | 3 => some 10000
  | _ + 4 => none

/-- `get_s5time`, returning the decoded duration in microseconds. -/
def get_s5time (buf : List Nat) (i : Nat) : RRes Nat :=
  match buf[i]?, buf[i + 1]? with
  | some b0, some b1 =>
    match s5base (b0 / 16) with
    | none => .panicked "This value should not be greater than 3"
    | some base =>
      match hexDigit (b0 % 16), hexDigit (b1 / 16), hexDigit (b1 % 16) with
      | some d1, some d2, some d3 => .ok (base * (d1 * 100 + d2 * 10 + d3) * 1000)
      | _, _, _ => .panicked "to_digit unwrap failed"
  | _, _ => .panicked "slice index out of range"

/-- C2 counterexample.  On bytes `[0x12, 0x34]` the selector nibble is 1
(claimed multiplier 100 µs) and the BCD magnitude is 234, so the claim
predicts a duration of `100 * 234 = 23400` microseconds; the code returns
23 400 000 microseconds (23.4 s, as the repository's own test asserts). -/
theorem C2_s5time_counterexample :
    get_s5time [18, 52] 0 = RRes.ok 23400000 ∧ (23400000 : Nat) ≠ 100 * 234 := by
  decide

/-- C2 (amended).  `get_s5time` reads exactly the 2 bytes at `byte_index`;
the high nibble of the first selects a multiplier of 10, 100, 1000 or
10000 *milliseconds* for nibble values 0..3; the remaining three nibbles
are BCD digits forming a magnitude 0..999; the returned duration is
multiplier × magnitude milliseconds (i.e. `1000 × table × magnitude`
microseconds).  It fails if the selector nibble exceeds 3 or any BCD
nibble exceeds 9. -/
theorem C2_s5time_spec (buf : List Nat) (i b0 b1 : Nat)
    (h0 : buf[i]? = some b0) (h1 : buf[i + 1]? = some b1)
    (hb0 : b0 < 256) (hb1 : b1 < 256) :
    (b0 / 16 ≤ 3 ∧ b0 % 16 ≤ 9 ∧ b1 / 16 ≤ 9 ∧ b1 % 16 ≤ 9 →
      get_s5time buf i =
        RRes.ok (10 ^ (b0 / 16 + 1) * ((b0 % 16) * 100 + (b1 / 16) * 10 + (b1 % 16)) * 1000)) ∧
    ((3 < b0 / 16 ∨ 9 < b0 % 16 ∨ 9 < b1 / 16 ∨ 9 < b1 % 16) →
      ∃ e, get_s5time buf i = RRes.panicked e) := by
  constructor
  · rintro ⟨hs, hd1, hd2, hd3⟩
    have hbase : s5base (b0 / 16) = some (10 ^ (b0 / 16 + 1)) := by
      set s := b0 / 16 with hsdef
      interval_cases s <;> rfl
    have hx1 : hexDigit (b0 % 16) = some (b0 % 16) := by
      unfold hexDigit
      rw [if_pos (by omega)]
    have hx2 : hexDigit (b1 / 16) = some (b1 / 16) := by
      unfold hexDigit
      rw [if_pos (by omega)]
    have hx3 : hexDigit (b1 % 16) = some (b1 % 16) := by
      unfold hexDigit
      rw [if_pos (by omega)]
    simp [get_s5time, h0, h1, hbase, hx1, hx2, hx3]
  · intro hbad
    simp only [get_s5time, h0, h1]
    rcases Nat.lt_or_ge 3 (b0 / 16) with hgt | hle
    · have hbase : s5base (b0 / 16) = none := by
        obtain ⟨k, hk⟩ : ∃ k, b0 / 16 = k + 4 := ⟨b0 / 16 - 4, by omega⟩
        rw [hk]
        rfl
      rw [hbase]
      exact ⟨_, rfl⟩
    · have hbase : s5base (b0 / 16) = some (10 ^ (b0 / 16 + 1)) := by
        set s := b0 / 16 with hsdef
        interval_cases s <;> rfl
      rw [hbase]
      have hdig : 9 < b0 % 16 ∨ 9 < b1 / 16 ∨ 9 < b1 % 16 := by
        rcases hbad with h | h | h | h
        · omega
        · exact Or.inl h
        · exact Or.inr (Or.inl h)
        · exact Or.inr (Or.inr h)
      rcases hdig with h | h | h
      · have hx : hexDigit (b0 % 16) = none := by
          unfold hexDigit
          rw [if_neg (by omega)]
        rw [hx]
        cases hexDigit (b1 / 16) <;> cases hexDigit (b1 % 16) <;> exact ⟨_, rfl⟩
      · have hx : hexDigit (b1 / 16) = none := by
          unfold hexDigit
          rw [if_neg (by omega)]
        rw [hx]
        cases hexDigit (b0 % 16) <;> cases hexDigit (b1 % 16) <;> exact ⟨_, rfl⟩
      · have hx : hexDigit (b1 % 16) = none := by
          unfold hexDigit
          rw [if_neg (by omega)]
        rw [hx]
        cases hexDigit (b0 % 16) <;> cases hexDigit (b1 / 16) <;> exact ⟨_, rfl⟩

/-- Witness for C2: the repository test vector `[0x12, 0x34]` decodes to
23 400 000 µs = 23.4 s. -/
theorem C2_s5time_spec_witness : get_s5time [18, 52] 0 = RRes.ok 23400000 := by
  have h := (C2_s5time_spec [18, 52] 0 18 52 rfl rfl (by decide) (by decide)).1
    (by decide)
  exact h

/-! ## String decoder -/

/-- Validity of a byte sequence as UTF-8 (RFC 3629), the check behind
`String::from_utf8`. -/
def utf8Valid : List Nat → Bool
  | [] => true
  | b :: rest =>
    if b ≤ 0x7F then utf8Valid rest
    else if 0xC2 ≤ b ∧ b ≤ 0xDF then
      match rest with
      | b1 :: r => (0x80 ≤ b1 && b1 ≤ 0xBF) && utf8Valid r
      | [] => false
    else if b = 0xE0 then
      match rest with
      | b1 :: b2 :: r =>
        (0xA0 ≤ b1 && b1 ≤ 0xBF) && ((0x80 ≤ b2 && b2 ≤ 0xBF) && utf8Valid r)
      | _ => false
    else if (0xE1 ≤ b ∧ b ≤ 0xEC) ∨ (0xEE ≤ b ∧ b ≤ 0xEF) then
      match rest with
      | b1 :: b2 :: r =>
        (0x80 ≤ b1 && b1 ≤ 0xBF) && ((0x80 ≤ b2 && b2 ≤ 0xBF) && utf8Valid r)
      | _ => false
    else if b = 0xED then
      match rest with
      | b1 :: b2 :: r =>
        (0x80 ≤ b1 && b1 ≤ 0x9F) && ((0x80 ≤ b2 && b2 ≤ 0xBF) && utf8Valid r)
      | _ => false
    else if b = 0xF0 then
      match rest with
      | b1 :: b2 :: b3 :: r =>
        (0x90 ≤ b1 && b1 ≤ 0xBF) && ((0x80 ≤ b2 && b2 ≤ 0xBF) &&
          ((0x80 ≤ b3 && b3 ≤ 0xBF) && utf8Valid r))
      | _ => false
    else if 0xF1 ≤ b ∧ b ≤ 0xF3 then
      match rest with
      | b1 :: b2 :: b3 :: r =>
        (0x80 ≤ b1 && b1 ≤ 0xBF) && ((0x80 ≤ b2 && b2 ≤ 0xBF) &&
          ((0x80 ≤ b3 && b3 ≤ 0xBF) && utf8Valid r))
      | _ => false
    else if b = 0xF4 then
      match rest with
      | b1 :: b2 :: b3 :: r =>
        (0x80 ≤ b1 && b1 ≤ 0x8F) && ((0x80 ≤ b2 && b2 ≤ 0xBF) &&
          ((0x80 ≤ b3 && b3 ≤ 0xBF) && utf8Valid r))
      | _ => false
    else false

/-- `get_string`: reads the capacity and length header bytes, panics with
"String length error" when `current_length > max_capacity` or
`max_capacity > 254`, then reads `current_length` bytes and decodes them
as UTF-8 (`String::from_utf8(...).unwrap()`); the resulting Rust `String`
is represented by its UTF-8 byte sequence. -/
def get_string (buf : List Nat) (i : Nat) : RRes (List Nat) :=
  match buf[i]?, buf[i + 1]? with
  | some mx, some ln =>
    if ln > mx ∨ mx > 254 then .panicked "String length error"
    else
      match slice? buf (i + 2) ln with
      | some data =>
        if utf8Valid data then .ok data
        else .panicked "called unwrap on FromUtf8Error"
      | none => .panicked "slice index out of range"
  | _, _ => .panicked "index out of bounds"

/-- C3 (code bug).  On the buffer `[5, 6]` (claimed length 6 exceeds
capacity 5) and on `[255, 0]` (capacity 255 exceeds 254) `get_string`
panics with "String length error" instead of returning a format error to
the caller; the panic fires for exactly the condition the claim names. -/
theorem C3_get_string_panics :
    get_string [5, 6] 0 = RRes.panicked "String length error" ∧
    get_string [255, 0] 0 = RRes.panicked "String length error" ∧
    (∀ buf i mx ln, buf[i]? = some mx → buf[i + 1]? = some ln →
      ln > mx ∨ mx > 254 → get_string buf i = RRes.panicked "String length error") := by
  refine ⟨by decide, by decide, ?_⟩
  intro buf i mx ln h0 h1 hbad
  simp [get_string, h0, h1, hbad]

/-! ## TOD decoder -/

/-- `get_tod`: explicit bounds check (panic on overflow), then the 4 bytes
as `u32` big-endian milliseconds; panics when `Duration::as_secs`, i.e.
`ms / 1000`, reaches 86 400.  The returned `Duration` is modelled by its
millisecond count. -/
def get_tod (buf : List Nat) (i : Nat) : RRes Nat :=
  if buf.length < i + 4 then
    .panicked "Date cannot be extracted from bytearray. bytearray_[Index:Index+16] would cause overflow."
  else
    match slice? buf i 4 with
    | some bs =>
      if beNat bs / 1000 ≥ 86400 then
        .panicked "Time_Of_Date cannot be extracted from bytearray. Bytearray contains unexpected values."
      else .ok (beNat bs)
    | none => .panicked "slice index out of range"

/-- C4 (code bug).  Decoding the bytes `[0x05, 0x26, 0x5C, 0x00]`
(86 400 000 ms, exactly one day) panics instead of surfacing a range error
to the caller; an in-range input such as `[0, 0, 0, 42]` decodes to a
42 ms duration, and the panic fires exactly when the decoded millisecond
count is ≥ 86 400 000. -/
theorem C4_get_tod_panics :
    get_tod [5, 38, 92, 0] 0 =
      RRes.panicked "Time_Of_Date cannot be extracted from bytearray. Bytearray contains unexpected values." ∧
    get_tod [0, 0, 0, 42] 0 = RRes.ok 42 ∧
    (∀ buf i bs, slice? buf i 4 = some bs → 86400000 ≤ beNat bs →
      ∃ e, get_tod buf i = RRes.panicked e) := by
  refine ⟨by decide, by decide, ?_⟩
  intro buf i bs hs hge
  have hlen : ¬ buf.length < i + 4 := by
    unfold slice? at hs
    by_contra hc
    rw [if_neg (by omega)] at hs
    exact Option.noConfusion hs
  simp only [get_tod, if_neg hlen, hs]
  rw [if_pos (by omega)]
  exact ⟨_, rfl⟩

/-! ## Time decoder -/

/-- Rust `i32` division truncates toward zero; defined for the positive
(Nat) divisors used by `get_time`. -/
def rustDiv (a : Int) (b : Nat) : Int :=
  if 0 ≤ a then ((a.toNat / b : Nat) : Int) else -(((-a).toNat / b : Nat) : Int)

/-- Rust `i32` remainder has the sign of the dividend; defined for the
positive (Nat) divisors used by `get_time`. -/
def rustMod (a : Int) (b : Nat) : Int :=
  if 0 ≤ a then ((a.toNat % b : Nat) : Int) else -(((-a).toNat % b : Nat) : Int)

/-- Two's-complement wrap of an arbitrary integer into `i32` range
(release-mode Rust overflow semantics). -/
def i32wrap (x : Int) : Int :=
  (x + 2 ^ 31) % 2 ^ 32 - 2 ^ 31

/-- Rust `{}` rendering of an `i32`. -/
def intStr (x : Int) : String :=
  if x < 0 then "-" ++ Nat.repr (-x).toNat else Nat.repr x.toNat

/-- The body of `get_time` after the 4-byte read: sign split (`val = -val`
wraps on `i32::MIN`), truncating division/modulo decomposition, and the
unpadded `format!("{}{}:{}:{}:{}.{}", ..)` rendering (the code applies
`% 24`/`% 60` a second time inside `format!`). -/
def timeFmt (val : Int) : String :=
  (if val < 0 then "-" else "") ++
  (let v := if val < 0 then i32wrap (-val) else val
   intStr (rustDiv v 86400000) ++ ":" ++
   intStr (rustMod (rustMod (rustDiv v 3600000) 24) 24) ++ ":" ++
   intStr (rustMod (rustMod (rustDiv v 60000) 60) 60) ++ ":" ++
   intStr (rustMod (rustMod (rustDiv v 1000) 60) 60) ++ "." ++
   intStr (rustMod v 1000))

/-- `get_time`: 4 bytes as signed 32-bit big-endian milliseconds, rendered
by `timeFmt`. -/
def get_time (buf : List Nat) (i : Nat) : RRes String :=
  match slice? buf i 4 with
  | some bs => .ok (timeFmt (asSigned 32 (beNat bs)))
  | none => .panicked "slice index out of range"

/-- The claim's decomposition of a millisecond count, rendered without any
zero padding (each component in minimal decimal form). -/
def timeRender (v : Int) : String :=
  (if v < 0 then "-" else "") ++
  (Nat.repr (v.natAbs / 86400000) ++ ":" ++ Nat.repr (v.natAbs / 3600000 % 24) ++ ":" ++
   Nat.repr (v.natAbs / 60000 % 60) ++ ":" ++ Nat.repr (v.natAbs / 1000 % 60) ++ "." ++
   Nat.repr (v.natAbs % 1000))

theorem rustDiv_cast (a b : Nat) : rustDiv (a : Int) b = ((a / b : Nat) : Int) := by
  unfold rustDiv
  rw [if_pos (Int.natCast_nonneg a)]
  simp

theorem rustMod_cast (a b : Nat) : rustMod (a : Int) b = ((a % b : Nat) : Int) := by
  unfold rustMod
  rw [if_pos (Int.natCast_nonneg a)]
  simp

theorem intStr_cast (a : Nat) : intStr (a : Int) = Nat.repr a := by
  unfold intStr
  rw [if_neg (not_lt.mpr (Int.natCast_nonneg a))]
  simp

theorem mod_mod_self24 (x : Nat) : x % 24 % 24 = x % 24 := Nat.mod_mod_of_dvd x dvd_rfl

theorem mod_mod_self60 (x : Nat) : x % 60 % 60 = x % 60 := Nat.mod_mod_of_dvd x dvd_rfl

/-- C6 counterexample.  The buffer `[0, 0, 0, 1]` (1 ms) renders as
`0:0:0:0.1` — the `format!` string uses no zero padding — while the claim
requires two-digit hours/minutes/seconds and three-digit milliseconds,
i.e. `0:00:00:00.001`. -/
theorem C6_time_counterexample :
    get_time [0, 0, 0, 1] 0 = RRes.ok "0:0:0:0.1" ∧
    ("0:0:0:0.1" : String) ≠ "0:00:00:00.001" := by
  decide

theorem slice_full (bs : List Nat) (w : Nat) (h : bs.length = w) :
    slice? bs 0 w = some bs := by
  unfold slice?
  rw [if_pos (by omega)]
  rw [List.drop_zero]
  congr 1
  exact List.take_of_length_le (by omega)

/-- C6 (amended).  For every signed 32-bit millisecond count above
`i32::MIN`, `get_time` of its big-endian encoding returns the sign, then
days, hours, minutes, seconds (modulo 24/60/60) and milliseconds, each in
minimal decimal form (no zero padding), joined as `D:H:M:S.ms`; on
`i32::MIN` itself the negation wraps and the components are rendered
negative. -/
theorem C6_time_spec :
    (∀ v : Int, -(2 ^ 31) < v → v < 2 ^ 31 →
      get_time (beBytes 4 (toUnsigned 32 v)) 0 = RRes.ok (timeRender v)) ∧
    get_time [128, 0, 0, 0] 0 = RRes.ok "--24:-20:-31:-23.-648" := by
  constructor
  · intro v h1 h2
    have hlt : toUnsigned 32 v < 256 ^ 4 := by
      have := toUnsigned_lt 32 v
      norm_num at this ⊢
      omega
    have hs : slice? (beBytes 4 (toUnsigned 32 v)) 0 4 = some (beBytes 4 (toUnsigned 32 v)) :=
      slice_full _ _ (beBytes_length _ _)
    have hbe : beNat (beBytes 4 (toUnsigned 32 v)) = toUnsigned 32 v :=
      beNat_beBytes _ _ hlt
    have hsg : asSigned 32 (toUnsigned 32 v) = v :=
      signed_roundtrip 32 v (by norm_num) (by norm_num; omega) (by norm_num; omega)
    simp only [get_time, hs, hbe, hsg]
    rcases le_or_lt 0 v with hv | hv
    · have hneg : ¬ v < 0 := by omega
      obtain ⟨a, rfl⟩ : ∃ a : Nat, v = (a : Int) := ⟨v.toNat, (Int.toNat_of_nonneg hv).symm⟩
      simp only [timeFmt, timeRender, if_neg hneg, Int.natAbs_ofNat]
      simp only [rustDiv_cast, rustMod_cast, mod_mod_self24, mod_mod_self60, intStr_cast]
    · have hwrap : i32wrap (-v) = -v := by
        unfold i32wrap
        have hb : (0:Int) ≤ -v + 2 ^ 31 := by omega
        have hb2 : -v + 2 ^ 31 < 2 ^ 32 := by omega
        rw [Int.emod_eq_of_lt hb hb2]
        ring
      obtain ⟨a, ha⟩ : ∃ a : Nat, -v = (a : Int) :=
        ⟨(-v).toNat, (Int.toNat_of_nonneg (by omega)).symm⟩
      have hna : v.natAbs = a := by omega
      have hwrap2 : i32wrap (-v) = (a : Int) := by rw [hwrap, ha]
      simp only [timeFmt, timeRender, if_pos hv, hwrap2, hna]
      simp only [rustDiv_cast, rustMod_cast, mod_mod_self24, mod_mod_self60, intStr_cast]
  · decide

/-- Witness for C6: the repository test vector `0x7FFFFFFF` ms renders as
`24:20:31:23.647`. -/
theorem C6_time_spec_witness :
    get_time (beBytes 4 (toUnsigned 32 2147483647)) 0 = RRes.ok "24:20:31:23.647" := by
  have h := C6_time_spec.1 2147483647 (by norm_num) (by norm_num)
  have h2 : timeRender 2147483647 = "24:20:31:23.647" := by decide
  rw [h, h2]

/-! ## Time encoder (`set_time` / `parse_time_string`)

The source validates with `regex::Regex::new(r"(-?)(\d+):(\d+):(\d+):(\d+).(\d+)")`
and `re.captures(time_string)`: the pattern is *unanchored* (the regex
crate searches for the leftmost occurrence anywhere in the input) and the
`.` between the fourth and fifth digit groups is an unescaped dot, which
matches any character except a newline.  `matchAt` models one attempt at a
given start position with the leftmost-first, greedy-with-backtracking
semantics of the regex crate, and `findMatch` scans start positions from
the left.  The crate's `\d` is the Unicode decimal-digit class; the model
uses the ASCII digits, which agrees with it exactly on ASCII input, so the
`set_time` theorem quantifies only over ASCII strings. -/

/-- Digits of a capture group as a number (`caps[k].parse::<u64>` before
the range check). -/
def digitsToNat (cs : List Char) : Nat :=
  cs.foldl (fun acc c => 10 * acc + (c.toNat - 48)) 0

/-- Backtracking for the tail `(\d+).(\d+)` of the pattern: `ds` is the
maximal digit run, and seconds take `k` digits (longest first), then one
arbitrary non-newline character, then a nonempty greedy digit run for the
milliseconds group. -/
def secTry (ds rest : List Char) : Nat → Option (Nat × Nat)
  | 0 => none
  | k + 1 =>
    (match ds.drop (k + 1) ++ rest with
     | c :: r2 =>
       if c = '\n' then none
       else
         match List.span (fun ch => ch.isDigit) r2 with
         | (ms, _) =>
           if ms = [] then none
           else some (digitsToNat (ds.take (k + 1)), digitsToNat ms)
     | [] => none) <|>
    secTry ds rest k

/-- One attempt of the full pattern `(-?)(\d+):(\d+):(\d+):(\d+).(\d+)` at
the start of `cs`; returns the captured sign and the five numbers. -/
def matchAt (cs : List Char) : Option (Bool × Nat × Nat × Nat × Nat × Nat) :=
  let (neg, cs1) := match cs with
    | '-' :: t => (true, t)
    | _ => (false, cs)
  match List.span (fun ch => ch.isDigit) cs1 with
  | (d1, r1) =>
    if d1 = [] then none else
    match r1 with
    | ':' :: r2 =>
      match List.span (fun ch => ch.isDigit) r2 with
      | (d2, r3) =>
        if d2 = [] then none else
        match r3 with
        | ':' :: r4 =>
          match List.span (fun ch => ch.isDigit) r4 with
          | (d3, r5) =>
            if d3 = [] then none else
            match r5 with
            | ':' :: r6 =>
              match List.span (fun ch => ch.isDigit) r6 with
              | (ds, r7) =>
                if ds = [] then none else
                match secTry ds r7 ds.length with
                | some (sec, ms) =>
                  some (neg, digitsToNat d1, digitsToNat d2, digitsToNat d3, sec, ms)
                | none => none
            | _ => none
        | _ => none
    | _ => none

/-- Leftmost search of the regex crate: try every start position from the
left. -/
def findMatch : List Char → Option (Bool × Nat × Nat × Nat × Nat × Nat)
  | [] => none
  | c :: t => matchAt (c :: t) <|> findMatch t

/-- `parse_time_string`: on a match, the five captured groups are parsed
as `u64` (panic on overflow of a group), combined with wrapping `u64`
arithmetic, sign-multiplied as `i64` and cast back to `u64`
(release-mode wrapping); the resulting `Duration` is modelled by its
millisecond count.  Without a match, returns the parse error. -/
def parse_time_string (s : String) : RRes Nat :=
  match findMatch s.data with
  | some (neg, d, h, m, sec, ms) =>
    if d < 2 ^ 64 ∧ h < 2 ^ 64 ∧ m < 2 ^ 64 ∧ sec < 2 ^ 64 ∧ ms < 2 ^ 64 then
      let total : Nat := (((d * 24 + h) * 60 + m) * 60 + sec) * 1000 + ms
      let signed : Int := if neg then -(total : Int) else (total : Int)
      .ok ((signed % (2 ^ 64 : Int)).toNat)
    else .panicked "parse::<u64> unwrap failed"
  | none => .err ("Invalid time string: " ++ s)

/-- `set_time`: parse, then write `duration.as_millis() as i32` (the low
32 bits) big-endian at `byte_index`. -/
def set_time (buf : List Nat) (i : Nat) (s : String) : RRes Unit × List Nat :=
  match parse_time_string s with
  | .ok ms =>
    if i + 4 ≤ buf.length then (.ok (), splice buf i (beBytes 4 (ms % 2 ^ 32)))
    else (.panicked "slice index out of range", buf)
  | .err e => (.err e, buf)
  | .panicked e => (.panicked e, buf)

/-- The claim's acceptance pattern, following the spec words exactly:
an optional leading minus, four colon-separated nonempty digit runs, a
literal dot, a trailing nonempty digit run — anchored to span the whole
input. -/
def digitsThen (sep : Char) (cs : List Char) : Option (List Char) :=
  match List.span (fun ch => ch.isDigit) cs with
  | (ds, rest) =>
    if ds = [] then none
    else
      match rest with
      | c :: r => if c = sep then some r else none
      | [] => none

/-- Anchored tail check of the claim's pattern: a nonempty digit run ending
the input. -/
def digitsEnd (cs : List Char) : Bool :=
  match List.span (fun ch => ch.isDigit) cs with
  | (ds, rest) => !ds.isEmpty && rest.isEmpty

/-- The claim's pattern `[-]days:hours:minutes:seconds.milliseconds` as a
whole-input test. -/
def specTimeFormat (s : String) : Bool :=
  let cs := match s.data with
    | '-' :: t => t
    | _ => s.data
  match digitsThen ':' cs with
  | some r1 =>
    match digitsThen ':' r1 with
    | some r2 =>
      match digitsThen ':' r2 with
      | some r3 =>
        match digitsThen '.' r3 with
        | some r4 => digitsEnd r4
        | none => false
      | none => false
    | none => false
  | none => false

/-- C5 counterexample.  The input `"1:2:3:4x5"` does not match the claim's
pattern (the separator before the milliseconds is `x`, not `.`), so the
claim requires a parse error; the code's unescaped dot matches the `x` and
the input is accepted with value 1 day 2 h 3 min 4 s 5 ms = 93 784 005 ms. -/
theorem C5_time_parse_counterexample :
    specTimeFormat "1:2:3:4x5" = false ∧
    parse_time_string "1:2:3:4x5" = RRes.ok 93784005 := by
  constructor
  · decide
  · decide

theorem wrap64_32 (x : Int) : ((x % (2 ^ 64 : Int)).toNat) % (2 ^ 32 : Nat) = toUnsigned 32 x := by
  unfold toUnsigned
  omega

/-- C5 (amended).  For every ASCII input (the domain on which the model's
ASCII `\d` coincides with the regex crate's Unicode `\d`), `set_time`
does one of exactly three things, decided by whether the code's regex
finds a match anywhere in the input (optional minus, four colon-separated
digit runs, one arbitrary non-newline separator, a digit run): with a
match whose five groups are each below 2^64, it writes the total signed
milliseconds as a signed 32-bit big-endian value at `byte_index`; with a
match having a group of 2^64 or more, it panics in
`parse::<u64>().unwrap()`, writing nothing; with no match (e.g.
"invalid time"), it returns a parse error and leaves the buffer
untouched, never writing a default value. -/
theorem C5_set_time_spec :
    (∀ (buf : List Nat) (i : Nat) (s : String),
      (∀ c ∈ s.data, c.toNat < 128) →
      findMatch s.data = none →
      set_time buf i s = (RRes.err ("Invalid time string: " ++ s), buf)) ∧
    (∀ (buf : List Nat) (i : Nat) (s : String) (neg : Bool) (d h m sec ms : Nat),
      (∀ c ∈ s.data, c.toNat < 128) →
      findMatch s.data = some (neg, d, h, m, sec, ms) →
      i + 4 ≤ buf.length →
      d < 2 ^ 64 → h < 2 ^ 64 → m < 2 ^ 64 → sec < 2 ^ 64 → ms < 2 ^ 64 →
      set_time buf i s =
        (RRes.ok (), splice buf i (beBytes 4 (toUnsigned 32
          (if neg then -(((((d * 24 + h) * 60 + m) * 60 + sec) * 1000 + ms : Nat) : Int)
           else ((((d * 24 + h) * 60 + m) * 60 + sec) * 1000 + ms : Nat)))))) ∧
    (∀ (buf : List Nat) (i : Nat) (s : String) (neg : Bool) (d h m sec ms : Nat),
      (∀ c ∈ s.data, c.toNat < 128) →
      findMatch s.data = some (neg, d, h, m, sec, ms) →
      (2 ^ 64 ≤ d ∨ 2 ^ 64 ≤ h ∨ 2 ^ 64 ≤ m ∨ 2 ^ 64 ≤ sec ∨ 2 ^ 64 ≤ ms) →
      set_time buf i s = (RRes.panicked "parse::<u64> unwrap failed", buf)) := by
  refine ⟨?_, ?_, ?_⟩
  · intro buf i s hascii hnone
    simp only [set_time, parse_time_string, hnone]
  · intro buf i s neg d h m sec ms hascii hm hlen hd hh hmm hsec hms
    simp only [set_time, parse_time_string, hm]
    rw [if_pos ⟨hd, hh, hmm, hsec, hms⟩]
    simp only [if_pos hlen]
    rw [wrap64_32]
  · intro buf i s neg d h m sec ms hascii hm hbig
    simp only [set_time, parse_time_string, hm]
    rw [if_neg (by omega)]

/-- Witness for C5: "invalid time" is rejected with a parse error and the
buffer is untouched; "0:0:0:0.1" (1 ms) is accepted and written as
`[0,0,0,1]`; a matched input whose days group (10^20) exceeds `u64::MAX`
panics without writing. -/
theorem C5_set_time_spec_witness :
    set_time [9, 9, 9, 9] 0 "invalid time" =
      (RRes.err "Invalid time string: invalid time", [9, 9, 9, 9]) ∧
    set_time [9, 9, 9, 9] 0 "0:0:0:0.1" = (RRes.ok (), [0, 0, 0, 1]) ∧
    set_time [9, 9, 9, 9] 0 "99999999999999999999:0:0:0.0" =
      (RRes.panicked "parse::<u64> unwrap failed", [9, 9, 9, 9]) := by
  refine ⟨?_, ?_, ?_⟩
  · exact C5_set_time_spec.1 [9, 9, 9, 9] 0 "invalid time" (by decide) (by decide)
  · have h := C5_set_time_spec.2.1 [9, 9, 9, 9] 0 "0:0:0:0.1" false 0 0 0 0 1
      (by decide) (by decide) (by decide) (by decide) (by decide) (by decide) (by decide)
      (by decide)
    rw [h]
    decide
  · exact C5_set_time_spec.2.2 [9, 9, 9, 9] 0 "99999999999999999999:0:0:0.0"
      false 99999999999999999999 0 0 0 0 (by decide) (by decide) (by decide)

/-! ## Date encoder/decoder

`set_date`/`get_date` use `chrono::NaiveDate` (an external library): a
proleptic-Gregorian calendar date.  It is modelled by an explicit
year/month/day structure with the standard Gregorian validity predicate,
chronological (lexicographic) order, the standard day-numbering formula
`dayNumber` for date subtraction (`num_days`), and day-by-day succession
for date + `Duration::days(n)`. -/

/-- A `chrono::NaiveDate` value (year restricted to `Nat`: every date the
claims quantify over lies in 1990..2168, and earlier nonnegative years
exercise the same out-of-range comparison path as chrono's negative
years). -/
structure SDate where
  y : Nat
  m : Nat
  d : Nat
deriving DecidableEq, Repr

/-- Gregorian leap-year rule. -/
def isLeapY (y : Nat) : Bool :=
  decide ((y % 4 = 0 ∧ y % 100 ≠ 0) ∨ y % 400 = 0)

/-- Days in a month. -/
def daysInMonth (L : Bool) (m : Nat) : Nat :=
  match m with
  | 1 => 31
  | 2 => if L then 29 else 28
  | 3 => 31
  | 4 => 30
  | 5 => 31
  | 6 => 30
  | 7 => 31
  | 8 => 31
  | 9 => 30
  | 10 => 31
  | 11 => 30
  | 12 => 31
  | _ => 0

/-- Days strictly before month `m` within a year. -/
def daysBefore (L : Bool) (m : Nat) : Nat :=
  (match m with
   | 1 => 0
   | 2 => 31
   | 3 => 59
   | 4 => 90
   | 5 => 120
   | 6 => 151
   | 7 => 181
   | 8 => 212
   | 9 => 243
   | 10 => 273
   | 11 => 304
   | 12 => 334
   | _ => 0) + (if L ∧ 3 ≤ m then 1 else 0)

/-- Leap years in `1..n`. -/
def leaps (n : Nat) : Nat :=
  n / 4 + n / 400 - n / 100

/-- Days before year `y` (counting from an arbitrary fixed epoch, year 1). -/
def yearDays (y : Nat) : Nat :=
  365 * (y - 1) + leaps (y - 1)

/-- Absolute day number of a date (only differences are ever used, matching
`chrono`'s `num_days`). -/
def dayNumber (dt : SDate) : Nat :=
  yearDays dt.y + daysBefore (isLeapY dt.y) dt.m + (dt.d - 1)

/-- A structurally valid Gregorian date. -/
def validDate (dt : SDate) : Prop :=
  1 ≤ dt.m ∧ dt.m ≤ 12 ∧ 1 ≤ dt.d ∧ dt.d ≤ daysInMonth (isLeapY dt.y) dt.m

instance (dt : SDate) : Decidable (validDate dt) := by
  unfold validDate
  infer_instance

/-- Chronological (lexicographic) order on dates, `chrono`'s `Ord`. -/
def dateLt (a b : SDate) : Prop :=
  a.y < b.y ∨ (a.y = b.y ∧ (a.m < b.m ∨ (a.m = b.m ∧ a.d < b.d)))

instance (a b : SDate) : Decidable (dateLt a b) := by
  unfold dateLt
  infer_instance

def dateLe (a b : SDate) : Prop :=
  dateLt a b ∨ a = b

instance (a b : SDate) : Decidable (dateLe a b) := by
  unfold dateLe
  infer_instance

/-- `NaiveDate::from_ymd_opt(1990, 1, 1)`. -/
def baseDate : SDate := ⟨1990, 1, 1⟩

/-- `NaiveDate::from_ymd_opt(2168, 12, 31)`. -/
def maxDate : SDate := ⟨2168, 12, 31⟩

/-- `set_date`: range-check against 1990-01-01..2168-12-31 (returning an
error without touching the buffer), then write
`(value - base_date).num_days() as i16` big-endian. -/
def set_date (buf : List Nat) (i : Nat) (dt : SDate) : RRes Unit × List Nat :=
  if dateLt dt baseDate ∨ dateLt maxDate dt then
    (.err "Date out of range", buf)
  else
    if i + 2 ≤ buf.length then
      (.ok (), splice buf i (beBytes 2 (toUnsigned 16
        ((dayNumber dt : Int) - (dayNumber baseDate : Int)))))
    else (.panicked "slice index out of range", buf)

/-- Successor date (used to model `chrono` date + day `Duration`). -/
def nextDay (dt : SDate) : SDate :=
  if dt.d < daysInMonth (isLeapY dt.y) dt.m then ⟨dt.y, dt.m, dt.d + 1⟩
  else if dt.m < 12 then ⟨dt.y, dt.m + 1, 1⟩
  else ⟨dt.y + 1, 1, 1⟩

/-- `date + chrono::Duration::days(n)` for `n ≥ 0`. -/
def addDays : SDate → Nat → SDate
  | dt, 0 => dt
  | dt, n + 1 => addDays (nextDay dt) n

/-- `get_date`: explicit bounds check (panic on overflow), read 2 bytes as
`u16` big-endian, add that many days to 1990-01-01, panic if the result
exceeds 2168-12-31. -/
def get_date (buf : List Nat) (i : Nat) : RRes SDate :=
  if buf.length < i + 2 then
    .panicked "Date cannot be extracted from bytearray. bytearray_[Index:Index+16] would cause overflow."
  else
    match slice? buf i 2 with
    | some bs =>
      if dateLt maxDate (addDays baseDate (beNat bs)) then
        .panicked "date_val is higher than specification allows."
      else .ok (addDays baseDate (beNat bs))
    | none => .panicked "slice index out of range"

/-! ### Calendar arithmetic lemmas -/

theorem leaps_succ (n : Nat) :
    leaps (n + 1) = leaps n + (if isLeapY (n + 1) then 1 else 0) := by
  have h4 := Nat.succ_div n 4
  have h100 := Nat.succ_div n 100
  have h400 := Nat.succ_div n 400
  have hmono : n / 100 ≤ n / 4 := Nat.div_le_div_left (by norm_num) (by norm_num)
  unfold leaps
  by_cases hb : ((n + 1) % 4 = 0 ∧ (n + 1) % 100 ≠ 0) ∨ (n + 1) % 400 = 0
  · rw [if_pos (by unfold isLeapY; exact decide_eq_true hb)]
    rcases hb with ⟨hA, hB⟩ | hC <;> split_ifs at h4 h100 h400 <;> omega
  · rw [if_neg (by unfold isLeapY; simp only [decide_eq_true_eq]; exact hb)]
    push_neg at hb
    split_ifs at h4 h100 h400 <;> omega

theorem daysBefore_one (L : Bool) : daysBefore L 1 = 0 := by
  cases L <;> rfl

theorem daysBefore_step (L : Bool) (m : Nat) (h1 : 1 ≤ m) (h2 : m ≤ 11) :
    daysBefore L (m + 1) = daysBefore L m + daysInMonth L m := by
  interval_cases m <;> cases L <;> rfl

theorem daysInMonth_pos (L : Bool) (m : Nat) (h1 : 1 ≤ m) (h2 : m ≤ 12) :
    1 ≤ daysInMonth L m := by
  interval_cases m <;> cases L <;> decide

theorem daysBefore_add_dim_le (L : Bool) (m1 m2 : Nat) (h1 : 1 ≤ m1) (hlt : m1 < m2)
    (h2 : m2 ≤ 12) : daysBefore L m1 + daysInMonth L m1 ≤ daysBefore L m2 := by
  have hu : m1 ≤ 11 := by omega
  interval_cases m1 <;> interval_cases m2 <;> cases L <;> decide

theorem inyear_bound (L : Bool) (m d : Nat) (h1 : 1 ≤ m) (h2 : m ≤ 12) (h3 : 1 ≤ d)
    (h4 : d ≤ daysInMonth L m) :
    daysBefore L m + (d - 1) ≤ 364 + (if L then 1 else 0) := by
  interval_cases m <;> cases L <;> simp [daysBefore, daysInMonth] at h4 ⊢ <;> omega

theorem yearDays_succ (y : Nat) (hy : 1 ≤ y) :
    yearDays (y + 1) = yearDays y + 365 + (if isLeapY y then 1 else 0) := by
  obtain ⟨z, rfl⟩ : ∃ z, y = z + 1 := ⟨y - 1, by omega⟩
  unfold yearDays
  simp only [Nat.add_sub_cancel]
  rw [leaps_succ z]
  split_ifs <;> omega

theorem yearDays_mono (a b : Nat) (ha : 1 ≤ a) (h : a ≤ b) : yearDays a ≤ yearDays b := by
  induction b with
  | zero => omega
  | succ b ih =>
    rcases Nat.eq_or_lt_of_le h with rfl | hlt
    · exact le_refl _
    · have hab : a ≤ b := by omega
      have h1b : 1 ≤ b := by omega
      have hstep := yearDays_succ b h1b
      have ihh := ih hab
      split_ifs at hstep <;> omega

theorem nextDay_y (dt : SDate) : dt.y ≤ (nextDay dt).y := by
  obtain ⟨y, m, d⟩ := dt
  unfold nextDay
  split_ifs
  · exact Nat.le_refl y
  · exact Nat.le_refl y
  · exact Nat.le_succ y

theorem validDate_nextDay (dt : SDate) (hv : validDate dt) : validDate (nextDay dt) := by
  obtain ⟨y, m, d⟩ := dt
  have hv' : 1 ≤ m ∧ m ≤ 12 ∧ 1 ≤ d ∧ d ≤ daysInMonth (isLeapY y) m := hv
  obtain ⟨h1, h2, h3, h4⟩ := hv'
  unfold nextDay
  by_cases hd : d < daysInMonth (isLeapY y) m
  · rw [if_pos hd]
    show 1 ≤ m ∧ m ≤ 12 ∧ 1 ≤ d + 1 ∧ d + 1 ≤ daysInMonth (isLeapY y) m
    exact ⟨h1, h2, by omega, by omega⟩
  · rw [if_neg hd]
    by_cases hm : m < 12
    · rw [if_pos hm]
      show 1 ≤ m + 1 ∧ m + 1 ≤ 12 ∧ 1 ≤ 1 ∧ 1 ≤ daysInMonth (isLeapY y) (m + 1)
      exact ⟨by omega, by omega, Nat.le_refl 1, daysInMonth_pos _ _ (by omega) (by omega)⟩
    · rw [if_neg hm]
      show 1 ≤ 1 ∧ 1 ≤ 12 ∧ 1 ≤ 1 ∧ 1 ≤ daysInMonth (isLeapY (y + 1)) 1
      exact ⟨Nat.le_refl 1, by norm_num, Nat.le_refl 1,
        daysInMonth_pos _ _ (by norm_num) (by norm_num)⟩

theorem dayNumber_nextDay (dt : SDate) (hv : validDate dt) (hy : 1 ≤ dt.y) :
    dayNumber (nextDay dt) = dayNumber dt + 1 := by
  obtain ⟨y, m, d⟩ := dt
  have hv' : 1 ≤ m ∧ m ≤ 12 ∧ 1 ≤ d ∧ d ≤ daysInMonth (isLeapY y) m := hv
  obtain ⟨h1, h2, h3, h4⟩ := hv'
  have hy' : 1 ≤ y := hy
  unfold nextDay
  by_cases hd : d < daysInMonth (isLeapY y) m
  · rw [if_pos hd]
    show yearDays y + daysBefore (isLeapY y) m + (d + 1 - 1) =
      yearDays y + daysBefore (isLeapY y) m + (d - 1) + 1
    omega
  · rw [if_neg hd]
    by_cases hm : m < 12
    · rw [if_pos hm]
      show yearDays y + daysBefore (isLeapY y) (m + 1) + (1 - 1) =
        yearDays y + daysBefore (isLeapY y) m + (d - 1) + 1
      have hstep := daysBefore_step (isLeapY y) m h1 (by omega)
      omega
    · rw [if_neg hm]
      have hm12 : m = 12 := by omega
      subst hm12
      have hd31 : d = 31 := by
        revert h4 hd
        cases isLeapY y <;> simp [daysInMonth] <;> omega
      subst hd31
      show yearDays (y + 1) + daysBefore (isLeapY (y + 1)) 1 + (1 - 1) =
        yearDays y + daysBefore (isLeapY y) 12 + (31 - 1) + 1
      have hys := yearDays_succ y hy'
      rw [daysBefore_one]
      cases hL : isLeapY y <;> rw [hL] at hys <;> simp at hys <;>
        simp [daysBefore, hL, hys]

theorem addDays_spec (n : Nat) (dt : SDate) (hv : validDate dt) (hy : 1 ≤ dt.y) :
    validDate (addDays dt n) ∧ dayNumber (addDays dt n) = dayNumber dt + n ∧
      1 ≤ (addDays dt n).y := by
  induction n generalizing dt with
  | zero => exact ⟨hv, rfl, hy⟩
  | succ n ih =>
    have h1 := validDate_nextDay dt hv
    have h2 : 1 ≤ (nextDay dt).y := le_trans hy (nextDay_y dt)
    have h3 := dayNumber_nextDay dt hv hy
    have hrec := ih (nextDay dt) h1 h2
    refine ⟨hrec.1, ?_, hrec.2.2⟩
    show dayNumber (addDays (nextDay dt) n) = _
    rw [hrec.2.1, h3]
    omega

theorem dayNumber_lt (a b : SDate) (hva : validDate a) (hvb : validDate b)
    (hya : 1 ≤ a.y) (hlt : dateLt a b) : dayNumber a < dayNumber b := by
  obtain ⟨y1, m1, d1⟩ := a
  obtain ⟨y2, m2, d2⟩ := b
  have hv1 : 1 ≤ m1 ∧ m1 ≤ 12 ∧ 1 ≤ d1 ∧ d1 ≤ daysInMonth (isLeapY y1) m1 := hva
  have hv2 : 1 ≤ m2 ∧ m2 ≤ 12 ∧ 1 ≤ d2 ∧ d2 ≤ daysInMonth (isLeapY y2) m2 := hvb
  have hy1 : 1 ≤ y1 := hya
  have hlt' : y1 < y2 ∨ (y1 = y2 ∧ (m1 < m2 ∨ (m1 = m2 ∧ d1 < d2))) := hlt
  obtain ⟨a1, a2, a3, a4⟩ := hv1
  obtain ⟨b1, b2, b3, b4⟩ := hv2
  show yearDays y1 + daysBefore (isLeapY y1) m1 + (d1 - 1) <
    yearDays y2 + daysBefore (isLeapY y2) m2 + (d2 - 1)
  rcases hlt' with hy | ⟨rfl, hm | ⟨rfl, hd⟩⟩
  · have hF1 := inyear_bound (isLeapY y1) m1 d1 a1 a2 a3 a4
    have hys := yearDays_succ y1 hy1
    have hmono := yearDays_mono (y1 + 1) y2 (by omega) (by omega)
    split_ifs at hF1 hys <;> omega
  · have hstep := daysBefore_add_dim_le (isLeapY y1) m1 m2 a1 hm b2
    omega
  · omega

theorem dateLt_trichotomy (a b : SDate) : dateLt a b ∨ a = b ∨ dateLt b a := by
  obtain ⟨y1, m1, d1⟩ := a
  obtain ⟨y2, m2, d2⟩ := b
  show (y1 < y2 ∨ (y1 = y2 ∧ (m1 < m2 ∨ (m1 = m2 ∧ d1 < d2)))) ∨
    SDate.mk y1 m1 d1 = SDate.mk y2 m2 d2 ∨
    (y2 < y1 ∨ (y2 = y1 ∧ (m2 < m1 ∨ (m2 = m1 ∧ d2 < d1))))
  simp only [SDate.mk.injEq]
  omega

theorem dayNumber_inj (a b : SDate) (hva : validDate a) (hvb : validDate b)
    (hya : 1 ≤ a.y) (hyb : 1 ≤ b.y) (h : dayNumber a = dayNumber b) : a = b := by
  rcases dateLt_trichotomy a b with hlt | heq | hgt
  · have := dayNumber_lt a b hva hvb hya hlt
    omega
  · exact heq
  · have := dayNumber_lt b a hvb hva hyb hgt
    omega

theorem dateLe_not_lt (a b : SDate) (h : dateLe a b) : ¬ dateLt b a := by
  obtain ⟨y1, m1, d1⟩ := a
  obtain ⟨y2, m2, d2⟩ := b
  have h' : (y1 < y2 ∨ (y1 = y2 ∧ (m1 < m2 ∨ (m1 = m2 ∧ d1 < d2)))) ∨
      SDate.mk y1 m1 d1 = SDate.mk y2 m2 d2 := h
  simp only [SDate.mk.injEq] at h'
  show ¬ (y2 < y1 ∨ (y2 = y1 ∧ (m2 < m1 ∨ (m2 = m1 ∧ d2 < d1))))
  omega

theorem dateLe_base_year (dt : SDate) (h : dateLe baseDate dt) : 1990 ≤ dt.y := by
  obtain ⟨y, m, d⟩ := dt
  have h' : (1990 < y ∨ (1990 = y ∧ (1 < m ∨ (1 = m ∧ 1 < d)))) ∨
      SDate.mk 1990 1 1 = SDate.mk y m d := h
  simp only [SDate.mk.injEq] at h'
  show 1990 ≤ y
  omega

/-- The in-range, in-bounds behaviour of `set_date`, shared by the range
and round-trip theorems: the day offset is the difference of day numbers,
and the `as i16` cast loses nothing because the offset fits in 16 bits. -/
theorem set_date_ok (dt : SDate) (buf : List Nat) (i : Nat)
    (hv : validDate dt) (h1 : dateLe baseDate dt) (h2 : dateLe dt maxDate)
    (hlen : i + 2 ≤ buf.length) :
    dayNumber baseDate ≤ dayNumber dt ∧ dayNumber dt ≤ dayNumber maxDate ∧
    set_date buf i dt =
      (RRes.ok (), splice buf i (beBytes 2 (dayNumber dt - dayNumber baseDate))) := by
  have hvb : validDate baseDate := by decide
  have hvm : validDate maxDate := by decide
  have hyd : 1 ≤ dt.y := le_trans (by norm_num) (dateLe_base_year dt h1)
  have hge : dayNumber baseDate ≤ dayNumber dt := by
    rcases h1 with hlt | heq
    · exact le_of_lt (dayNumber_lt baseDate dt hvb hv (by decide) hlt)
    · rw [heq]
  have hle : dayNumber dt ≤ dayNumber maxDate := by
    rcases h2 with hlt | heq
    · exact le_of_lt (dayNumber_lt dt maxDate hv hvm hyd hlt)
    · rw [heq]
  have hnot : ¬ (dateLt dt baseDate ∨ dateLt maxDate dt) := by
    intro hor
    rcases hor with hlt | hlt
    · exact dateLe_not_lt baseDate dt h1 hlt
    · exact dateLe_not_lt dt maxDate h2 hlt
  refine ⟨hge, hle, ?_⟩
  unfold set_date
  rw [if_neg hnot, if_pos hlen]
  have hmax : dayNumber maxDate - dayNumber baseDate = 65378 := by decide
  have hoff : toUnsigned 16 ((dayNumber dt : Int) - (dayNumber baseDate : Int)) =
      dayNumber dt - dayNumber baseDate := by
    unfold toUnsigned
    omega
  rw [hoff]

/-- C7.  For every valid calendar date and buffer with 2 bytes available at
`byte_index`: a date before 1990-01-01 or after 2168-12-31 makes `set_date`
fail with a range error, writing nothing; otherwise it writes the day
offset from 1990-01-01 as a 16-bit big-endian quantity (the offset is at
most 65378, so the `as i16` cast loses no information). -/
theorem C7_set_date_spec (dt : SDate) (buf : List Nat) (i : Nat)
    (hv : validDate dt) (hlen : i + 2 ≤ buf.length) :
    ((dateLt dt baseDate ∨ dateLt maxDate dt) →
      set_date buf i dt = (RRes.err "Date out of range", buf)) ∧
    (¬ (dateLt dt baseDate ∨ dateLt maxDate dt) →
      dayNumber dt - dayNumber baseDate < 2 ^ 16 ∧
      set_date buf i dt =
        (RRes.ok (), splice buf i (beBytes 2 (dayNumber dt - dayNumber baseDate)))) := by
  constructor
  · intro hbad
    unfold set_date
    rw [if_pos hbad]
  · intro hnot
    have hnot2 := not_or.mp hnot
    have h1 : dateLe baseDate dt := by
      rcases dateLt_trichotomy baseDate dt with h | h | h
      · exact Or.inl h
      · exact Or.inr h
      · exact absurd h hnot2.1
    have h2 : dateLe dt maxDate := by
      rcases dateLt_trichotomy dt maxDate with h | h | h
      · exact Or.inl h
      · exact Or.inr h
      · exact absurd h hnot2.2
    obtain ⟨hge, hle, heq⟩ := set_date_ok dt buf i hv h1 h2 hlen
    have hmax : dayNumber maxDate - dayNumber baseDate = 65378 := by decide
    exact ⟨by omega, heq⟩

/-- Witness for C7: 2024-03-27 encodes as `[48, 216]` (offset 12504 days,
matching the repository's `test_set_date`), and 1989-12-31 is rejected. -/
theorem C7_set_date_spec_witness :
    set_date [0, 0] 0 ⟨2024, 3, 27⟩ = (RRes.ok (), [48, 216]) ∧
    set_date [0, 0] 0 ⟨1989, 12, 31⟩ = (RRes.err "Date out of range", [0, 0]) := by
  constructor
  · have h := (C7_set_date_spec ⟨2024, 3, 27⟩ [0, 0] 0 (by decide) (by decide)).2 (by decide)
    rw [h.2]
    decide
  · exact (C7_set_date_spec ⟨1989, 12, 31⟩ [0, 0] 0 (by decide) (by decide)).1 (by decide)

/-- C10.  For every valid calendar date in 1990-01-01..2168-12-31 and
buffer with 2 bytes available, decoding after a successful encode returns
exactly the original date — including dates whose day offset exceeds
32767, where the encoder casts through `i16` and the decoder reads `u16`:
the offset never exceeds 65378, so the 16-bit image is unambiguous. -/
theorem C10_date_roundtrip (dt : SDate) (buf : List Nat) (i : Nat)
    (hv : validDate dt) (h1 : dateLe baseDate dt) (h2 : dateLe dt maxDate)
    (hlen : i + 2 ≤ buf.length) :
    get_date (set_date buf i dt).2 i = RRes.ok dt := by
  obtain ⟨hge, hle, heq⟩ := set_date_ok dt buf i hv h1 h2 hlen
  rw [heq]
  show get_date (splice buf i (beBytes 2 (dayNumber dt - dayNumber baseDate))) i = RRes.ok dt
  have hmax : dayNumber maxDate - dayNumber baseDate = 65378 := by decide
  have hofflt : dayNumber dt - dayNumber baseDate < 65536 := by omega
  have hs2 : i + (beBytes 2 (dayNumber dt - dayNumber baseDate)).length ≤ buf.length := by
    rw [beBytes_length]
    omega
  have hslen := splice_length buf (beBytes 2 (dayNumber dt - dayNumber baseDate)) i hs2
  unfold get_date
  rw [if_neg (by omega)]
  have hsl := slice_splice_be buf i 2 (dayNumber dt - dayNumber baseDate) hlen
  simp only [hsl]
  have hbn : beNat (beBytes 2 (dayNumber dt - dayNumber baseDate)) =
      dayNumber dt - dayNumber baseDate := beNat_beBytes 2 _ (by norm_num; omega)
  rw [hbn]
  have hads := addDays_spec (dayNumber dt - dayNumber baseDate) baseDate (by decide) (by decide)
  have hdn : dayNumber (addDays baseDate (dayNumber dt - dayNumber baseDate)) = dayNumber dt := by
    rw [hads.2.1]
    have hbase : dayNumber baseDate = 726467 := by decide
    omega
  have hdt : addDays baseDate (dayNumber dt - dayNumber baseDate) = dt :=
    dayNumber_inj _ _ hads.1 hv hads.2.2
      (le_trans (by norm_num) (dateLe_base_year dt h1)) hdn
  rw [hdt, if_neg (dateLe_not_lt dt maxDate h2)]

/-- Witness for C10: the round-trip at 2080-01-01, whose day offset 32872
exceeds 32767 (the `i16`/`u16` mismatch the claim names). -/
theorem C10_date_roundtrip_witness :
    get_date (set_date [7, 7] 0 ⟨2080, 1, 1⟩).2 0 = RRes.ok ⟨2080, 1, 1⟩ :=
  C10_date_roundtrip ⟨2080, 1, 1⟩ [7, 7] 0 (by decide) (by decide) (by decide) (by decide)

/-- C9.  Whenever `set_bool`, `set_char`, `set_date` or `set_time` returns
an `Err`, the caller's buffer is unchanged: each validates before writing
any byte. -/
theorem C9_encode_atomic_on_error :
    (∀ (buf : List Nat) (i j : Nat) (v : Bool) (e : String),
      (set_bool buf i j v).1 = RRes.err e → (set_bool buf i j v).2 = buf) ∧
    (∀ (buf : List Nat) (i : Nat) (c : Char) (e : String),
      (set_char buf i c).1 = RRes.err e → (set_char buf i c).2 = buf) ∧
    (∀ (buf : List Nat) (i : Nat) (dt : SDate) (e : String),
      (set_date buf i dt).1 = RRes.err e → (set_date buf i dt).2 = buf) ∧
    (∀ (buf : List Nat) (i : Nat) (s e : String),
      (set_time buf i s).1 = RRes.err e → (set_time buf i s).2 = buf) := by
  refine ⟨?_, ?_, ?_, ?_⟩
  · intro buf i j v e h
    unfold set_bool at h ⊢
    by_cases h7 : 7 < j
    · rw [if_pos h7]
    · rw [if_neg h7] at h ⊢
      cases hb : buf[i]? <;> rw [hb] at h <;> simp at h
  · intro buf i c e h
    unfold set_char at h ⊢
    by_cases ha : c.toNat ≤ 127
    · rw [if_pos ha] at h ⊢
      cases hb : buf[i]? <;> rw [hb] at h <;> simp at h
    · rw [if_neg ha]
  · intro buf i dt e h
    unfold set_date at h ⊢
    by_cases hr : dateLt dt baseDate ∨ dateLt maxDate dt
    · rw [if_pos hr]
    · rw [if_neg hr] at h ⊢
      by_cases hl : i + 2 ≤ buf.length
      · rw [if_pos hl] at h
        simp at h
      · rw [if_neg hl] at h
        simp at h
  · intro buf i s e h
    cases hp : parse_time_string s with
    | ok ms =>
      exfalso
      have h2 : set_time buf i s =
          (if i + 4 ≤ buf.length then (RRes.ok (), splice buf i (beBytes 4 (ms % 2 ^ 32)))
           else (RRes.panicked "slice index out of range", buf)) := by
        unfold set_time
        rw [hp]
      rw [h2] at h
      split at h <;> simp at h
    | err e2 =>
      have h2 : set_time buf i s = (RRes.err e2, buf) := by
        unfold set_time
        rw [hp]
      rw [h2]
    | panicked e2 =>
      exfalso
      have h2 : set_time buf i s = (RRes.panicked e2, buf) := by
        unfold set_time
        rw [hp]
      rw [h2] at h
      simp at h

/-- Witness for C9: each encoder's error path at a concrete input leaves
the buffer bytes intact. -/
theorem C9_encode_atomic_on_error_witness :
    (set_bool [5] 0 9 true).2 = [5] ∧
    (set_char [5] 0 'é').2 = [5] ∧
    (set_date [5, 5] 0 ⟨1989, 12, 31⟩).2 = [5, 5] ∧
    (set_time [5, 5, 5, 5] 0 "invalid time").2 = [5, 5, 5, 5] := by
  obtain ⟨h1, h2, h3, h4⟩ := C9_encode_atomic_on_error
  exact ⟨h1 [5] 0 9 true "bool_index 9 out of range" (by decide),
    h2 [5] 0 'é' "Non-ASCII character: é" (by decide),
    h3 [5, 5] 0 ⟨1989, 12, 31⟩ "Date out of range" (by decide),
    h4 [5, 5, 5, 5] 0 "invalid time" "Invalid time string: invalid time" (by decide)⟩

end Snap7
